import Mathlib

/-!
Shallow embedding of the AMR-gene-detection repository
(src/compare_to_reference.py and src/report_generator.py).

Sequences are Lean strings; Python floats are modelled as rationals.
Reference rows become `RefEntry` values in file order; the Pandas
DataFrame produced by `results_to_dataframe` is modelled as the ordered
list of its rows.
-/

namespace AMR

/-- Stores the top AMR gene match for a sample sequence
(dataclass `ComparisonResult` in compare_to_reference.py). -/
structure ComparisonResult where
  sample_id : String
  closest_gene : String
  similarity : ℚ
deriving DecidableEq, Repr

/-- One row of the reference catalog: the `gene_name` and `sequence`
columns of a row of the reference DataFrame. -/
structure RefEntry where
  gene_name : String
  sequence : String
deriving DecidableEq, Repr

/-- Number of positions at which the two character lists agree, up to the
length of the shorter one: `sum(1 for s, r in zip(sample, reference) if s == r)`. -/
def countMatches : List Char → List Char → Nat
  | s :: ss, r :: rs => (if s = r then 1 else 0) + countMatches ss rs
  | _, _ => 0

/-- `compute_similarity` from compare_to_reference.py: a simple
base-by-base similarity percentage over the uppercased sequences, with
denominator the length of the longer sequence. -/
def compute_similarity (sample_seq reference_seq : String) : ℚ :=
  let sample := sample_seq.data.map Char.toUpper
  let reference := reference_seq.data.map Char.toUpper
  if sample = [] ∨ reference = [] then 0
  else
    let matchTotal := countMatches sample reference
    let total_positions := max sample.length reference.length
    if total_positions = 0 then 0
    else ((matchTotal : ℚ) / (total_positions : ℚ)) * 100

/-- One iteration of the loop in `find_closest_match`: the running best is
replaced only when the new similarity is strictly greater. -/
def matchStep (sample_seq : String) (best : String × ℚ) (row : RefEntry) : String × ℚ :=
  if compute_similarity sample_seq row.sequence > best.2
  then (row.gene_name, compute_similarity sample_seq row.sequence)
  else best

/-- `find_closest_match` from compare_to_reference.py: scan the reference
rows in order starting from the sentinel `("", -1.0)`. -/
def find_closest_match (sample_seq : String) (reference_df : List RefEntry) : String × ℚ :=
  reference_df.foldl (matchStep sample_seq) ("", -1)

/-- Round-half-to-even to an integer, the semantics of the Python builtin
`round` on the rational model of floats. -/
def roundHalfEven (q : ℚ) : ℤ :=
  let f := ⌊q⌋
  let frac := q - (f : ℚ)
  if frac < 1 / 2 then f
  else if 1 / 2 < frac then f + 1
  else if f % 2 = 0 then f else f + 1

/-- The Python call `round(q, 2)`: round to 2 decimal places, half to even. -/
def pyRound2 (q : ℚ) : ℚ := ((roundHalfEven (q * 100) : ℤ) : ℚ) / 100

/-- `compare_samples_to_reference` from compare_to_reference.py: one
`ComparisonResult` per sample, in input order, with the similarity
rounded to 2 decimal places. -/
def compare_samples_to_reference (samples : List (String × String))
    (reference_df : List RefEntry) : List ComparisonResult :=
  samples.map fun sp =>
    let m := find_closest_match sp.2 reference_df
    { sample_id := sp.1, closest_gene := m.1, similarity := pyRound2 m.2 }

/-- `results_to_dataframe` from compare_to_reference.py: the DataFrame is
modelled as its ordered list of (Sample_ID, Closest_AMR_Gene, Similarity) rows. -/
def results_to_dataframe (results : List ComparisonResult) : List (String × String × ℚ) :=
  results.map fun r => (r.sample_id, r.closest_gene, r.similarity)

/-- The report-rendering step shared by `main` in compare_to_reference.py
and `main` in report_generator.py: build the DataFrame and abort with
`SystemExit("No comparison results generated.")` when it is empty. -/
def render_report (results : List ComparisonResult) :
    Except String (List (String × String × ℚ)) :=
  let df := results_to_dataframe results
  if df.isEmpty then Except.error "No comparison results generated."
  else Except.ok df

/-! ### Basic facts about `countMatches` -/

lemma countMatches_nil_left (b : List Char) : countMatches [] b = 0 := by
  cases b <;> rfl

lemma countMatches_nil_right (a : List Char) : countMatches a [] = 0 := by
  cases a <;> rfl

lemma countMatches_le_left : ∀ a b : List Char, countMatches a b ≤ a.length := by
  intro a
  induction a with
  | nil => intro b; simp [countMatches_nil_left]
  | cons x xs ih =>
    intro b
    cases b with
    | nil => simp [countMatches_nil_right]
    | cons y ys =>
      have h := ih ys
      simp only [countMatches, List.length_cons]
      split <;> omega

lemma countMatches_comm : ∀ a b : List Char, countMatches a b = countMatches b a := by
  intro a
  induction a with
  | nil => intro b; simp [countMatches_nil_left, countMatches_nil_right]
  | cons x xs ih =>
    intro b
    cases b with
    | nil => simp [countMatches_nil_left, countMatches_nil_right]
    | cons y ys =>
      simp only [countMatches]
      rw [ih ys]
      by_cases h : x = y
      · simp [h]
      · simp [h, Ne.symm h]

lemma countMatches_le_right (a b : List Char) : countMatches a b ≤ b.length := by
  rw [countMatches_comm]; exact countMatches_le_left b a

lemma countMatches_self : ∀ l : List Char, countMatches l l = l.length := by
  intro l
  induction l with
  | nil => rfl
  | cons x xs ih => simp [countMatches, ih, Nat.add_comm]

/-! ### Bounds on `compute_similarity` -/

lemma compute_similarity_nonneg (a b : String) : 0 ≤ compute_similarity a b := by
  simp only [compute_similarity]
  split
  · exact le_rfl
  · split
    · exact le_rfl
    · positivity

lemma compute_similarity_le_100 (a b : String) : compute_similarity a b ≤ 100 := by
  simp only [compute_similarity]
  split
  · norm_num
  · split
    · norm_num
    · rename_i hne hmax
      set la := a.data.map Char.toUpper with hla
      set lb := b.data.map Char.toUpper with hlb
      have hm : countMatches la lb ≤ max la.length lb.length :=
        le_trans (countMatches_le_left la lb) (le_max_left _ _)
      have ht : (0 : ℚ) < (max la.length lb.length : ℕ) := by
        have := Nat.pos_of_ne_zero hmax
        exact_mod_cast this
      rw [div_mul_eq_mul_div, div_le_iff₀ ht]
      have hmq : ((countMatches la lb : ℕ) : ℚ) ≤ ((max la.length lb.length : ℕ) : ℚ) :=
        Nat.cast_le.mpr hm
      nlinarith

lemma compute_similarity_empty_left (x : String) : compute_similarity "" x = 0 := by
  have h : ("" : String).data = [] := rfl
  simp [compute_similarity, h]

lemma compute_similarity_empty_right (x : String) : compute_similarity x "" = 0 := by
  have h : ("" : String).data = [] := rfl
  simp [compute_similarity, h]

/-! ### The scan in `find_closest_match` -/

lemma matchStep_eq (s : String) (p : String × ℚ) (r : RefEntry) :
    matchStep s p r =
      if compute_similarity s r.sequence > p.2
      then (r.gene_name, compute_similarity s r.sequence) else p := rfl

lemma foldl_matchStep_snd_le (s : String) (rs : List RefEntry) :
    ∀ (p : String × ℚ) (c : ℚ), p.2 ≤ c →
      (∀ r ∈ rs, compute_similarity s r.sequence ≤ c) →
      (List.foldl (matchStep s) p rs).2 ≤ c := by
  induction rs with
  | nil => intro p c hp _; simpa using hp
  | cons r rs ih =>
    intro p c hp hall
    rw [List.foldl_cons, matchStep_eq]
    split
    · exact ih _ _ (by simpa using hall r (by simp)) fun x hx => hall x (by simp [hx])
    · exact ih _ _ hp fun x hx => hall x (by simp [hx])

lemma foldl_matchStep_snd_lt (s : String) (rs : List RefEntry) :
    ∀ (p : String × ℚ) (c : ℚ), p.2 < c →
      (∀ r ∈ rs, compute_similarity s r.sequence < c) →
      (List.foldl (matchStep s) p rs).2 < c := by
  induction rs with
  | nil => intro p c hp _; simpa using hp
  | cons r rs ih =>
    intro p c hp hall
    rw [List.foldl_cons, matchStep_eq]
    split
    · exact ih _ _ (by simpa using hall r (by simp)) fun x hx => hall x (by simp [hx])
    · exact ih _ _ hp fun x hx => hall x (by simp [hx])

lemma le_foldl_matchStep_snd (s : String) (rs : List RefEntry) :
    ∀ p : String × ℚ, p.2 ≤ (List.foldl (matchStep s) p rs).2 := by
  induction rs with
  | nil => intro p; simp
  | cons r rs ih =>
    intro p
    rw [List.foldl_cons, matchStep_eq]
    split
    · rename_i hgt
      exact le_trans (le_of_lt hgt) (by simpa using ih (r.gene_name, compute_similarity s r.sequence))
    · exact ih p

lemma foldl_matchStep_keep (s : String) (rs : List RefEntry) :
    ∀ p : String × ℚ, (∀ r ∈ rs, compute_similarity s r.sequence ≤ p.2) →
      List.foldl (matchStep s) p rs = p := by
  induction rs with
  | nil => intro p _; rfl
  | cons r rs ih =>
    intro p hall
    rw [List.foldl_cons, matchStep_eq]
    rw [if_neg (by simpa using hall r (by simp))]
    exact ih p fun x hx => hall x (by simp [hx])

lemma foldl_matchStep_fst_mem (s : String) (rs : List RefEntry) :
    ∀ p : String × ℚ, (List.foldl (matchStep s) p rs).1 = p.1 ∨
      (List.foldl (matchStep s) p rs).1 ∈ rs.map RefEntry.gene_name := by
  induction rs with
  | nil => intro p; left; rfl
  | cons r rs ih =>
    intro p
    rw [List.foldl_cons, matchStep_eq]
    split
    · rcases ih (r.gene_name, compute_similarity s r.sequence) with h | h
      · right; simp [h]
      · right; simp [h]
    · rcases ih p with h | h
      · left; exact h
      · right; simp [h]

lemma find_closest_match_nil (s : String) : find_closest_match s [] = ("", -1) := rfl

lemma find_closest_match_cons (s : String) (r : RefEntry) (rs : List RefEntry) :
    find_closest_match s (r :: rs) =
      List.foldl (matchStep s) (r.gene_name, compute_similarity s r.sequence) rs := by
  unfold find_closest_match
  rw [List.foldl_cons, matchStep_eq]
  rw [if_pos (by have := compute_similarity_nonneg s r.sequence; simpa using by linarith)]

lemma find_closest_match_snd_nonneg (s : String) (refs : List RefEntry)
    (h : refs ≠ []) : 0 ≤ (find_closest_match s refs).2 := by
  rcases refs with _ | ⟨r, rs⟩
  · exact absurd rfl h
  · rw [find_closest_match_cons]
    exact le_trans (compute_similarity_nonneg s r.sequence)
      (le_foldl_matchStep_snd s rs (r.gene_name, compute_similarity s r.sequence))

lemma find_closest_match_snd_le_100 (s : String) (refs : List RefEntry) :
    (find_closest_match s refs).2 ≤ 100 := by
  unfold find_closest_match
  exact foldl_matchStep_snd_le s refs ("", -1) 100 (by norm_num)
    fun r _ => compute_similarity_le_100 s r.sequence

lemma find_closest_match_fst_mem (s : String) (refs : List RefEntry)
    (h : refs ≠ []) : ∃ e ∈ refs, (find_closest_match s refs).1 = e.gene_name := by
  rcases refs with _ | ⟨r, rs⟩
  · exact absurd rfl h
  · rw [find_closest_match_cons]
    rcases foldl_matchStep_fst_mem s rs (r.gene_name, compute_similarity s r.sequence)
      with hfst | hfst
    · exact ⟨r, by simp, hfst⟩
    · rcases List.mem_map.mp hfst with ⟨e, he, hge⟩
      exact ⟨e, by simp [he], hge.symm⟩

/-! ### Round-half-to-even -/

lemma floor_le_roundHalfEven (q : ℚ) : ⌊q⌋ ≤ roundHalfEven q := by
  simp only [roundHalfEven]
  split
  · exact le_rfl
  · split
    · omega
    · split <;> omega

lemma roundHalfEven_le (q : ℚ) (n : ℤ) (h : q ≤ (n : ℚ)) : roundHalfEven q ≤ n := by
  have hfl : ⌊q⌋ ≤ n := by
    have := Int.floor_le_floor h
    simpa using this
  have hup : 1 / 2 ≤ q - (⌊q⌋ : ℚ) → ⌊q⌋ + 1 ≤ n := by
    intro hh
    have hq : (⌊q⌋ : ℚ) + 1 / 2 ≤ q := by linarith
    have : ((⌊q⌋ : ℚ)) < (n : ℚ) := by linarith
    have : ⌊q⌋ < n := by exact_mod_cast this
    omega
  simp only [roundHalfEven]
  split
  · exact hfl
  · rename_i hnf
    push_neg at hnf
    split
    · exact hup hnf
    · split
      · exact hfl
      · exact hup hnf

lemma roundHalfEven_nonneg (q : ℚ) (h : 0 ≤ q) : 0 ≤ roundHalfEven q :=
  le_trans (Int.floor_nonneg.mpr h) (floor_le_roundHalfEven q)

lemma roundHalfEven_intCast (n : ℤ) : roundHalfEven (n : ℚ) = n := by
  simp only [roundHalfEven, Int.floor_intCast]
  norm_num

lemma pyRound2_intCast (n : ℤ) : pyRound2 (n : ℚ) = n := by
  unfold pyRound2
  have h : ((n : ℚ) * 100) = ((n * 100 : ℤ) : ℚ) := by push_cast; ring
  rw [h, roundHalfEven_intCast]
  push_cast
  field_simp

lemma pyRound2_nonneg (q : ℚ) (h : 0 ≤ q) : 0 ≤ pyRound2 q := by
  unfold pyRound2
  have := roundHalfEven_nonneg (q * 100) (by positivity)
  positivity

lemma pyRound2_le_100 (q : ℚ) (h : q ≤ 100) : pyRound2 q ≤ 100 := by
  unfold pyRound2
  have h1 : q * 100 ≤ ((10000 : ℤ) : ℚ) := by push_cast; nlinarith
  have h2 : roundHalfEven (q * 100) ≤ 10000 := roundHalfEven_le _ _ h1
  have h3 : ((roundHalfEven (q * 100) : ℤ) : ℚ) ≤ 10000 := by exact_mod_cast h2
  rw [div_le_iff₀ (by norm_num : (0 : ℚ) < 100)]
  linarith

lemma data_ne_nil {a : String} (h : a ≠ "") : a.data ≠ [] :=
  fun hd => h (String.ext (hd.trans rfl))

lemma pyRound2_neg_one : pyRound2 (-1 : ℚ) = -1 := by
  have h := pyRound2_intCast (-1)
  push_cast at h
  exact h

lemma pyRound2_hundred : pyRound2 (100 : ℚ) = 100 := by
  have h := pyRound2_intCast 100
  push_cast at h
  exact h

lemma compare_single_empty_refs :
    compare_samples_to_reference [("s1", "ACGT")] [] =
      [ComparisonResult.mk "s1" "" (-1)] := by
  simp [compare_samples_to_reference, find_closest_match_nil, pyRound2_neg_one]

lemma find_single_ref_eval :
    find_closest_match "ACGT" [⟨"geneA", "ACGT"⟩] = ("geneA", 100) := by
  simp +decide only [find_closest_match, List.foldl, matchStep, compute_similarity,
    countMatches]
  norm_num

lemma compare_single_one_ref :
    compare_samples_to_reference [("s1", "ACGT")] [⟨"geneA", "ACGT"⟩] =
      [ComparisonResult.mk "s1" "geneA" 100] := by
  simp [compare_samples_to_reference, find_single_ref_eval, pyRound2_hundred]

/-! ### The claims -/

/-- C4: with an empty reference collection, `find_closest_match` returns the
empty gene name and the sentinel similarity `-1.0` for every sample, and
`compare_samples_to_reference` still emits one result per sample (carrying
the sentinel) instead of skipping it. -/
theorem empty_reference_sentinel (s : String) (samples : List (String × String)) :
    find_closest_match s [] = ("", -1) ∧
    (compare_samples_to_reference samples []).length = samples.length ∧
    ∀ r ∈ compare_samples_to_reference samples [],
      r.closest_gene = "" ∧ r.similarity = -1 := by
  refine ⟨rfl, by simp [compare_samples_to_reference], fun r hr => ?_⟩
  rcases List.mem_map.mp hr with ⟨sp, _, rfl⟩
  exact ⟨rfl, pyRound2_neg_one⟩

/-- Witness for C4 at the sample list `[("s1", "ACGT")]`. -/
theorem empty_reference_sentinel_witness :
    find_closest_match "ACGT" [] = ("", -1) ∧
    (compare_samples_to_reference [("s1", "ACGT")] []).length = 1 ∧
    ((ComparisonResult.mk "s1" "" (-1)).closest_gene = "" ∧
     (ComparisonResult.mk "s1" "" (-1)).similarity = -1) := by
  obtain ⟨h1, h2, h3⟩ := empty_reference_sentinel "ACGT" [("s1", "ACGT")]
  refine ⟨h1, by simpa using h2, h3 (ComparisonResult.mk "s1" "" (-1)) ?_⟩
  rw [compare_single_empty_refs]
  exact List.mem_singleton.mpr rfl

/-- C5: the report-rendering step errors out with the terminal message
exactly when the comparison-result set handed to it is empty, rather than
silently producing an empty table. -/
theorem render_report_empty_error (results : List ComparisonResult) :
    render_report results = Except.error "No comparison results generated." ↔
      results = [] := by
  rcases results with _ | ⟨r, rs⟩
  · simp [render_report, results_to_dataframe]
  · simp [render_report, results_to_dataframe]

/-- Witness for C5: the empty result set is rejected. -/
theorem render_report_empty_error_witness :
    render_report [] = Except.error "No comparison results generated." :=
  (render_report_empty_error []).mpr rfl

/-- C6: the batch comparator returns exactly one result per input record, in
input order: the i-th result carries the identifier of the i-th sample, the gene
chosen by `find_closest_match`, and the raw matcher similarity rounded to
two decimal places. -/
theorem batch_comparator_order_and_rounding (samples : List (String × String))
    (refs : List RefEntry) :
    (compare_samples_to_reference samples refs).length = samples.length ∧
    ∀ i : ℕ, (compare_samples_to_reference samples refs)[i]? =
      (samples[i]?).map fun sp =>
        ComparisonResult.mk sp.1 (find_closest_match sp.2 refs).1
          (pyRound2 (find_closest_match sp.2 refs).2) := by
  refine ⟨by simp [compare_samples_to_reference], fun i => ?_⟩
  simp [compare_samples_to_reference]

/-- C7: an empty sequence on either side yields similarity `0.0`; the
division is guarded and cannot be reached with a zero denominator. -/
theorem compute_similarity_empty_zero (x : String) :
    compute_similarity "" x = 0 ∧ compute_similarity x "" = 0 :=
  ⟨compute_similarity_empty_left x, compute_similarity_empty_right x⟩

/-- C8: `compute_similarity` is symmetric in its two arguments, also for
sequences of different lengths. -/
theorem compute_similarity_symm (a b : String) :
    compute_similarity a b = compute_similarity b a := by
  by_cases ha : a.data.map Char.toUpper = []
  · simp [compute_similarity, ha]
  · by_cases hb : b.data.map Char.toUpper = []
    · simp [compute_similarity, hb]
    · have hza : a.length ≠ 0 := fun h0 =>
        ha (by rw [List.length_eq_zero.mp (show a.data.length = 0 from h0)]; rfl)
      have hzb : b.length ≠ 0 := fun h0 =>
        hb (by rw [List.length_eq_zero.mp (show b.data.length = 0 from h0)]; rfl)
      simp only [compute_similarity]
      rw [if_neg (by tauto), if_neg (by simp [Nat.max_eq_zero_iff, hza, hzb]),
        if_neg (by tauto), if_neg (by simp [Nat.max_eq_zero_iff, hza, hzb])]
      rw [countMatches_comm (a.data.map Char.toUpper) (b.data.map Char.toUpper),
        max_comm (a.data.map Char.toUpper).length (b.data.map Char.toUpper).length]

/-- C9: a non-empty sequence compared with itself scores exactly `100.0`. -/
theorem compute_similarity_self (a : String) (h : a ≠ "") :
    compute_similarity a a = 100 := by
  have hd := data_ne_nil h
  have hl : a.data.map Char.toUpper ≠ [] := by
    simpa using hd
  have hlen : (a.data.map Char.toUpper).length ≠ 0 := by
    rw [List.length_map]
    exact fun h0 => hd (List.length_eq_zero.mp h0)
  simp only [compute_similarity]
  rw [if_neg (by tauto)]
  rw [countMatches_self, max_self]
  rw [if_neg hlen]
  rw [div_self (by exact_mod_cast hlen)]
  norm_num

/-- Witness for C9 at the sequence "ACGT". -/
theorem compute_similarity_self_witness :
    ("ACGT" : String) ≠ "" ∧ compute_similarity "ACGT" "ACGT" = 100 :=
  ⟨by decide, compute_similarity_self "ACGT" (by decide)⟩

/-- C1: for non-empty sequences the similarity is 100 times the number of
positions (below the shorter length) where the uppercased characters agree,
divided by the longer length; hence it is capped at
`min len / max len * 100` even for a perfect prefix match. -/
theorem compute_similarity_formula (a b : String) (ha : a ≠ "") (hb : b ≠ "") :
    compute_similarity a b =
      100 * (countMatches (a.data.map Char.toUpper) (b.data.map Char.toUpper) : ℚ) /
        ((max a.length b.length : ℕ) : ℚ) ∧
    compute_similarity a b ≤
      ((min a.length b.length : ℕ) : ℚ) / ((max a.length b.length : ℕ) : ℚ) * 100 := by
  have hla : a.data.map Char.toUpper ≠ [] := by simpa using data_ne_nil ha
  have hlb : b.data.map Char.toUpper ≠ [] := by simpa using data_ne_nil hb
  have hlen : ∀ s : String, (s.data.map Char.toUpper).length = s.length := by
    intro s; rw [List.length_map]; rfl
  have hza : a.length ≠ 0 := fun h0 =>
    data_ne_nil ha (List.length_eq_zero.mp (show a.data.length = 0 from h0))
  have hmaxz : max a.length b.length ≠ 0 := by
    simp [Nat.max_eq_zero_iff, hza]
  have hmaxq : (0 : ℚ) < ((max a.length b.length : ℕ) : ℚ) := by
    exact_mod_cast Nat.pos_of_ne_zero hmaxz
  have hm : countMatches (a.data.map Char.toUpper) (b.data.map Char.toUpper) ≤
      min a.length b.length := by
    refine le_min ?_ ?_
    · rw [← hlen a]; exact countMatches_le_left _ _
    · rw [← hlen b]; exact countMatches_le_right _ _
  simp only [compute_similarity]
  rw [if_neg (by tauto)]
  rw [hlen a, hlen b]
  rw [if_neg hmaxz]
  constructor
  · ring
  · have hmq : ((countMatches (a.data.map Char.toUpper) (b.data.map Char.toUpper) : ℕ) : ℚ) ≤
        ((min a.length b.length : ℕ) : ℚ) := Nat.cast_le.mpr hm
    rw [div_mul_eq_mul_div, div_mul_eq_mul_div, div_le_div_iff_of_pos_right hmaxq]
    nlinarith

/-- Witness for C1 at the mismatched-length pair ("ACGT", "ACGTT"). -/
theorem compute_similarity_formula_witness :
    ("ACGT" : String) ≠ "" ∧ ("ACGTT" : String) ≠ "" ∧
    (compute_similarity "ACGT" "ACGTT" =
       100 * (countMatches ("ACGT".data.map Char.toUpper)
           ("ACGTT".data.map Char.toUpper) : ℚ) /
         ((max "ACGT".length "ACGTT".length : ℕ) : ℚ) ∧
     compute_similarity "ACGT" "ACGTT" ≤
       ((min "ACGT".length "ACGTT".length : ℕ) : ℚ) /
         ((max "ACGT".length "ACGTT".length : ℕ) : ℚ) * 100) :=
  ⟨by decide, by decide,
    compute_similarity_formula "ACGT" "ACGTT" (by decide) (by decide)⟩

/-- C2: the scan replaces the running best only on a strictly greater
similarity, so the entry whose similarity strictly exceeds everything
before it and is at least everything after it is returned; in particular
the earlier of two entries tied at the maximum wins. -/
theorem find_closest_match_first_tie_wins (s : String) (pre post : List RefEntry)
    (x : RefEntry)
    (hpre : ∀ r ∈ pre, compute_similarity s r.sequence < compute_similarity s x.sequence)
    (hpost : ∀ r ∈ post, compute_similarity s r.sequence ≤ compute_similarity s x.sequence) :
    find_closest_match s (pre ++ x :: post) =
      (x.gene_name, compute_similarity s x.sequence) := by
  unfold find_closest_match
  rw [List.foldl_append, List.foldl_cons]
  have hx0 : (0 : ℚ) ≤ compute_similarity s x.sequence :=
    compute_similarity_nonneg s x.sequence
  have hlt : (List.foldl (matchStep s) ("", -1) pre).2 < compute_similarity s x.sequence :=
    foldl_matchStep_snd_lt s pre ("", -1) _
      (show (-1 : ℚ) < compute_similarity s x.sequence by linarith) hpre
  rw [matchStep_eq, if_pos hlt]
  exact foldl_matchStep_keep s post (x.gene_name, compute_similarity s x.sequence)
    (by simpa using hpost)

/-- Witness for C2: two reference entries tied at similarity 100; the first
one, geneA, is returned. -/
theorem find_closest_match_first_tie_wins_witness :
    find_closest_match "ACGT" [⟨"geneA", "ACGT"⟩, ⟨"geneB", "ACGT"⟩] = ("geneA", 100) := by
  have h := find_closest_match_first_tie_wins "ACGT" [] [⟨"geneB", "ACGT"⟩]
    ⟨"geneA", "ACGT"⟩ (by simp)
    (by
      intro r hr
      rw [List.mem_singleton.mp hr])
  refine h.trans ?_
  simp +decide only [compute_similarity, countMatches, Prod.mk.injEq]
  norm_num

/-- C3 counterexample: with an empty reference collection the batch
comparator emits a result whose similarity is the sentinel -1, which is
not in the range [0, 100]. -/
theorem similarity_range_counterexample :
    compare_samples_to_reference [("s1", "ACGT")] [] =
      [ComparisonResult.mk "s1" "" (-1)] ∧ ¬ (0 : ℚ) ≤ (-1 : ℚ) :=
  ⟨compare_single_empty_refs, by norm_num⟩

/-- C3 amended: for every run whose reference collection is non-empty,
every produced similarity is in [0, 100] and is an integer multiple of
1/100, i.e. rounded to 2 decimal places. -/
theorem similarity_range_amended (samples : List (String × String))
    (refs : List RefEntry) (h : refs ≠ []) :
    ∀ r ∈ compare_samples_to_reference samples refs,
      0 ≤ r.similarity ∧ r.similarity ≤ 100 ∧
      ∃ n : ℤ, r.similarity = (n : ℚ) / 100 := by
  intro r hr
  rcases List.mem_map.mp hr with ⟨sp, _, rfl⟩
  exact ⟨pyRound2_nonneg _ (find_closest_match_snd_nonneg sp.2 refs h),
    pyRound2_le_100 _ (find_closest_match_snd_le_100 sp.2 refs),
    ⟨roundHalfEven ((find_closest_match sp.2 refs).2 * 100), rfl⟩⟩

/-- Witness for C3 amended at one sample and one reference entry. -/
theorem similarity_range_amended_witness :
    ([(⟨"geneA", "ACGT"⟩ : RefEntry)] ≠ []) ∧
    (0 ≤ (ComparisonResult.mk "s1" "geneA" 100).similarity ∧
     (ComparisonResult.mk "s1" "geneA" 100).similarity ≤ 100 ∧
     ∃ n : ℤ, (ComparisonResult.mk "s1" "geneA" 100).similarity = (n : ℚ) / 100) :=
  ⟨by simp,
    similarity_range_amended [("s1", "ACGT")] [⟨"geneA", "ACGT"⟩] (by simp)
      (ComparisonResult.mk "s1" "geneA" 100)
      (by rw [compare_single_one_ref]; exact List.mem_singleton.mpr rfl)⟩

/-- C10: on a non-empty reference collection the matcher always returns the
gene name of some entry with a non-negative similarity; an empty sample
sequence matches the first entry with similarity 0, never the sentinel. -/
theorem find_closest_match_nonempty_total (s : String) (refs : List RefEntry)
    (h : refs ≠ []) :
    (∃ e ∈ refs, (find_closest_match s refs).1 = e.gene_name) ∧
    0 ≤ (find_closest_match s refs).2 ∧
    find_closest_match "" refs = ((refs.head h).gene_name, 0) := by
  refine ⟨find_closest_match_fst_mem s refs h,
    find_closest_match_snd_nonneg s refs h, ?_⟩
  rcases refs with _ | ⟨g, rs⟩
  · exact absurd rfl h
  · rw [find_closest_match_cons, List.head_cons]
    rw [compute_similarity_empty_left]
    exact foldl_matchStep_keep "" rs (g.gene_name, 0)
      (fun r _ => by simp [compute_similarity_empty_left])

/-- Witness for C10 at the single-entry reference collection. -/
theorem find_closest_match_nonempty_total_witness :
    ([(⟨"geneA", "ACGT"⟩ : RefEntry)] ≠ []) ∧
    ((∃ e ∈ [(⟨"geneA", "ACGT"⟩ : RefEntry)],
        (find_closest_match "TTTT" [⟨"geneA", "ACGT"⟩]).1 = e.gene_name) ∧
     0 ≤ (find_closest_match "TTTT" [⟨"geneA", "ACGT"⟩]).2 ∧
     find_closest_match "" [⟨"geneA", "ACGT"⟩] = ("geneA", 0)) :=
  ⟨by simp, find_closest_match_nonempty_total "TTTT" [⟨"geneA", "ACGT"⟩] (by simp)⟩

end AMR
